import Mathlib

/-!
Shallow embedding of the xyzduck GeoJSON → DuckDB load pipeline.

Sources embedded:
- `src/geojson/loader.go` : `LoadGeoJSON`, `inferSchemaFromGeoJSON`, `inferType`,
  `createTableFromSchema`, `loadDataIntoTable`.
- `src/database/duckdb.go` : `EnsureDuckDBExtension`, `TableExists`, `GetTableSchema`.
- `cmd/load.go` : table-name derivation from a file path.

JSON values decoded by Go's `encoding/json` into `interface{}` are one of:
string, float64, bool, nil, []interface{}, map[string]interface{}. Go float64
values are modelled by their exact rational values (every finite float64 is a
rational); the integrality test `v == float64(int64(v))` holds exactly when the
value is an integer representable in int64, which is what `isIntegralInt64`
states. Go maps are modelled as association lists whose keys are distinct
(a `Nodup` hypothesis where it matters); the list order stands for one
(arbitrary) iteration order of the map.

The storage engine (DuckDB) is external. Its behaviour is modelled by:
an explicit `Database` state (catalog of tables with ordered columns and
stored rows), a `Faults` record that says which external calls succeed
(path resolution, open, extension load, catalog queries, DDL, DML), and a
trace of `DBEvent`s recording which statements the orchestrator issued.
The SQL load plan built by `loadDataIntoTable` (unnest features, project
`properties->>'col'` per non-geometry column, `ST_GeomFromGeoJSON` for the
geometry) is given its denotational meaning by `planRows`.
-/

namespace XyzDuck

/-- Go `interface{}` values produced by `encoding/json` unmarshalling. -/
inductive JsonValue where
  | str (s : String)
  | num (q : ℚ)
  | bool (b : Bool)
  | null
  | arr (xs : List JsonValue)
  | obj (kvs : List (String × JsonValue))

/-- Column of a table schema (`database.Column`; the Go field `Type` is spelt
`«Type»` because `Type` is reserved in Lean). -/
structure Column where
  Name : String
  «Type» : String
deriving DecidableEq

/-- Table schema (`geojson.Schema`). -/
structure Schema where
  Columns : List Column
deriving DecidableEq

/-- One GeoJSON feature: an opaque geometry literal plus a property mapping
(Go `map[string]interface{}`, modelled as an association list). -/
structure Feature where
  geometry : JsonValue
  properties : List (String × JsonValue)

/-- A parsed GeoJSON document: its features sequence. -/
structure GeoJSONDoc where
  features : List Feature

/-- The integrality test of `inferType`: Go `v == float64(int64(v))`.
For a float64 value `q` (an exact rational) this holds exactly when `q` is an
integer in the int64 range. (For values at or beyond 2^63 the Go conversion is
implementation-dependent and yields a value different from `v` on mainstream
targets, so they test false.) -/
def isIntegralInt64 (q : ℚ) : Bool :=
  decide (q.den = 1 ∧ -(2 ^ 63) ≤ q.num ∧ q.num < 2 ^ 63)

/-- `inferType` from `src/geojson/loader.go`: maps one property value to a
DuckDB storage type. -/
def inferType : JsonValue → String
  | .str _ => "VARCHAR"
  | .num q => if isIntegralInt64 q then "BIGINT" else "DOUBLE"
  | .bool _ => "BOOLEAN"
  | .null => "VARCHAR"
  | .arr _ => "VARCHAR"
  | .obj _ => "VARCHAR"

/-- Schema-inference failure modes of `inferSchemaFromGeoJSON`. -/
inductive InferError where
  | readOrParse
  | emptySource
deriving DecidableEq

/-- The column list built by `inferSchemaFromGeoJSON` from the representative
(first) feature's property mapping: one column per property, then the fixed
geometry column appended last. -/
def inferColumns (props : List (String × JsonValue)) : List Column :=
  (props.map fun kv => ⟨kv.1, inferType kv.2⟩) ++ [⟨"geom", "GEOMETRY"⟩]

/-- `inferSchemaFromGeoJSON` from `src/geojson/loader.go`. The file read and
JSON parse are modelled by the `Option GeoJSONDoc` argument (`none` = the file
could not be read or parsed). Zero features is the error
"GeoJSON file contains no features". -/
def inferSchemaFromGeoJSON (file : Option GeoJSONDoc) : Except InferError Schema :=
  match file with
  | none => .error .readOrParse
  | some gj =>
    match gj.features with
    | [] => .error .emptySource
    | f :: _ => .ok ⟨inferColumns f.properties⟩

/-- A cell value produced by the load plan's SELECT: SQL NULL, the textual
extraction `properties->>'col'` of a JSON property value, or the native
geometry produced by `ST_GeomFromGeoJSON(json(geometry))` (kept opaque: the
conversion is an external engine capability). -/
inductive SQLValue where
  | null
  | jsonText (v : JsonValue)
  | geom (g : JsonValue)

/-- Denotation of the projection `properties->>'colName' as colName` for one
feature: the property's value extracted as text, or SQL NULL when the feature
has no property of that name. -/
def projectCell (props : List (String × JsonValue)) (colName : String) : SQLValue :=
  match props.lookup colName with
  | none => .null
  | some v => .jsonText v

/-- The non-geometry columns of the target table, as selected by
`loadDataIntoTable` (`if col.Name != "geom"`). -/
def nonGeomCols (schema : List Column) : List Column :=
  schema.filter fun col => col.Name ≠ "geom"

/-- Denotation of the row the INSERT's SELECT builds for one unnested feature:
one projected property cell per non-geometry column of the target schema, in
schema order, then the converted geometry. -/
def planRow (schema : List Column) (f : Feature) : List SQLValue :=
  ((nonGeomCols schema).map fun col => projectCell f.properties col.Name)
    ++ [.geom f.geometry]

/-- Denotation of the whole INSERT … SELECT … unnest(features) statement:
one row per feature of the source document, in document order. -/
def planRows (doc : GeoJSONDoc) (schema : List Column) : List (List SQLValue) :=
  doc.features.map (planRow schema)

/-- One table of the storage engine's catalog: name, ordered columns, and the
stored rows. -/
structure Table where
  name : String
  columns : List Column
  rows : List (List SQLValue)

/-- The storage engine's state: its catalog of tables. -/
structure Database where
  tables : List Table

/-- `database.TableExists`: catalog lookup by exact name match. -/
def tableExists (db : Database) (tableName : String) : Bool :=
  db.tables.any fun t => t.name = tableName

/-- `database.GetTableSchema`: the ordered column list of the table, or the
empty list when the catalog has no such table (the information-schema query
returns no rows). -/
def getTableSchema (db : Database) (tableName : String) : List Column :=
  match db.tables.find? (fun t => t.name = tableName) with
  | some t => t.columns
  | none => []

/-- Effect of `createTableFromSchema`'s CREATE TABLE: a new empty table with
the schema's columns is added to the catalog. -/
def Database.createTable (db : Database) (tableName : String) (cols : List Column) :
    Database :=
  ⟨db.tables ++ [⟨tableName, cols, []⟩]⟩

/-- Effect of the INSERT: the rows are appended to the named table
(never a replace). -/
def Database.insertInto (db : Database) (tableName : String)
    (rs : List (List SQLValue)) : Database :=
  ⟨db.tables.map fun t => if t.name = tableName then ⟨t.name, t.columns, t.rows ++ rs⟩ else t⟩

/-- Number of rows currently stored in the named table (0 if absent). -/
def storedRows (db : Database) (tableName : String) : Nat :=
  match db.tables.find? (fun t => t.name = tableName) with
  | some t => t.rows.length
  | none => 0

/-- Which external calls succeed during one `LoadGeoJSON` invocation. Each
field stands for one fallible call of the Go code, in control-flow order. -/
structure Faults where
  resolveDBOk : Bool
  resolveGeoJSONOk : Bool
  openOk : Bool
  loadExtensionOk : Bool
  tableExistsOk : Bool
  createTableOk : Bool
  readJSONOk : Bool
  getSchemaOk : Bool
  insertOk : Bool
  rowsAffectedOk : Bool

/-- Failure modes of `loadDataIntoTable`, one per `return 0, err` site. -/
inductive LoadDataError where
  | readFile
  | getSchema
  | insert
  | rowsAffected
deriving DecidableEq

/-- Failure modes of `LoadGeoJSON`, one per `return 0, err` site. -/
inductive LoadError where
  | resolveDBPath
  | resolveGeoJSONPath
  | openDatabase
  | loadExtension
  | tableExistsCheck
  | inferSchema (e : InferError)
  | createTable
  | loadData (e : LoadDataError)
deriving DecidableEq

/-- Observable statements/invocations of one load, in order. `inferSchemaCall`
is the (side-effect-free) invocation of the Schema Builder, recorded so that
"schema inference is not invoked" is statable; the others are SQL statements
issued to the engine. -/
inductive DBEvent where
  | loadSpatial
  | inferSchemaCall
  | createTableStmt (tableName : String) (cols : List Column)
  | insertStmt (tableName : String) (rs : List (List SQLValue))

/-- `loadDataIntoTable` from `src/geojson/loader.go`: materialise the document
via `read_json_auto` (fails when the file is unreadable/unparsable or the
engine call fails), introspect the target table's schema, then run the single
bulk INSERT whose denotation is `planRows`; returns the engine's rows-affected
count. Result: updated database, row count or error, issued events. -/
def loadDataIntoTable (fl : Faults) (db : Database) (tableName : String)
    (file : Option GeoJSONDoc) :
    Database × Except LoadDataError Nat × List DBEvent :=
  match file with
  | none => (db, .error .readFile, [])
  | some doc =>
    if fl.readJSONOk = false then (db, .error .readFile, [])
    else if fl.getSchemaOk = false then (db, .error .getSchema, [])
    else
      let schema := getTableSchema db tableName
      let rs := planRows doc schema
      if fl.insertOk = false then (db, .error .insert, [])
      else if fl.rowsAffectedOk = false then
        (db.insertInto tableName rs, .error .rowsAffected, [.insertStmt tableName rs])
      else
        (db.insertInto tableName rs, .ok rs.length, [.insertStmt tableName rs])

/-- The tail of `LoadGeoJSON` after both branches converge: wrap
`loadDataIntoTable`'s outcome (`return 0, fmt.Errorf("failed to load data: %w")`
on error, `return rowCount, nil` on success), with `pre` the events issued
before the data load. -/
def finishLoad (pre : List DBEvent)
    (r : Database × Except LoadDataError Nat × List DBEvent) :
    Database × Nat × Option LoadError × List DBEvent :=
  match r with
  | (db2, .error e, ev) => (db2, 0, some (.loadData e), pre ++ ev)
  | (db2, .ok n, ev) => (db2, n, none, pre ++ ev)

/-- `LoadGeoJSON` from `src/geojson/loader.go`: resolve both paths, open the
database, load the spatial extension, check table existence; when the table is
absent, infer a schema from the document and create the table; then load the
data. Every failure returns row count 0 with the wrapping error of that phase.
Result: updated database, (row count, optional error), issued events. -/
def LoadGeoJSON (fl : Faults) (db : Database) (tableName : String)
    (file : Option GeoJSONDoc) :
    Database × Nat × Option LoadError × List DBEvent :=
  if fl.resolveDBOk = false then (db, 0, some .resolveDBPath, [])
  else if fl.resolveGeoJSONOk = false then (db, 0, some .resolveGeoJSONPath, [])
  else if fl.openOk = false then (db, 0, some .openDatabase, [])
  else if fl.loadExtensionOk = false then (db, 0, some .loadExtension, [.loadSpatial])
  else if fl.tableExistsOk = false then (db, 0, some .tableExistsCheck, [.loadSpatial])
  else if tableExists db tableName then
    finishLoad [.loadSpatial] (loadDataIntoTable fl db tableName file)
  else
    match inferSchemaFromGeoJSON file with
    | .error e => (db, 0, some (.inferSchema e), [.loadSpatial, .inferSchemaCall])
    | .ok schema =>
      if fl.createTableOk = false then
        (db, 0, some .createTable,
          [.loadSpatial, .inferSchemaCall, .createTableStmt tableName schema.Columns])
      else
        finishLoad
          [.loadSpatial, .inferSchemaCall, .createTableStmt tableName schema.Columns]
          (loadDataIntoTable fl (db.createTable tableName schema.Columns) tableName file)

/-- `strings.HasSuffix s suffix`: `suffix` is a trailing segment of `s`. -/
def goHasSuffix (s suffix : String) : Bool :=
  decide (suffix.toList <:+ s.toList)

/-- `database.EnsureDuckDBExtension` from `src/database/duckdb.go`: appends
`".duckdb"` unless the name already ends with it. -/
def EnsureDuckDBExtension (filename : String) : String :=
  if goHasSuffix filename ".duckdb" = false then filename ++ ".duckdb"
  else filename

/-- `strings.TrimSuffix s suffix`: drops the trailing `suffix` when present
(`s[:len(s)-len(suffix)]`), otherwise returns `s` unchanged. -/
def goTrimSuffix (s suffix : String) : String :=
  if goHasSuffix s suffix then
    String.mk (s.toList.take (s.toList.length - suffix.toList.length))
  else s

/-- `strings.ReplaceAll s old new` in the single-character case (the only
shape used by this repository): every occurrence of `old` becomes `new`. -/
def replaceAllChar (s : String) (old new : Char) : String :=
  String.mk (s.toList.map fun c => if c = old then new else c)

/-- Helper of `pathExt`: walks the path's characters from the end (the list is
the reversed path), stopping at a path separator; on the first `'.'` found,
returns the dot together with the characters after it (accumulated in `acc`,
already in original order). -/
def extRevAux (acc : List Char) : List Char → List Char
  | [] => []
  | c :: rest =>
    if c = '/' then []
    else if c = '.' then '.' :: acc
    else extRevAux (c :: acc) rest

/-- `filepath.Ext` (unix): the suffix beginning at the final dot in the final
path element; empty when that element has no dot. -/
def pathExt (path : String) : String :=
  String.mk (extRevAux [] path.toList.reverse)

/-- `filepath.Base` (unix): `"."` for the empty path; otherwise trailing
slashes are stripped, and the segment after the last remaining slash is
returned (`"/"` when the path consists only of separators). -/
def pathBase (path : String) : String :=
  if path = "" then "."
  else
    let stripped := (path.toList.reverse.dropWhile fun c => c = '/').reverse
    if stripped = [] then "/"
    else String.mk (stripped.reverse.takeWhile (fun c => c ≠ '/')).reverse

/-- Table-name derivation of `runLoad` in `cmd/load.go` when no `--table`
override is given: the file's base name, extension trimmed, then `'-'` and
`' '` normalised to `'_'`. -/
def deriveTableName (geojsonPath : String) : String :=
  let base := pathBase geojsonPath
  let t := goTrimSuffix base (pathExt base)
  replaceAllChar (replaceAllChar t '-' '_') ' ' '_'

/-- Table-name resolution of `runLoad`: the `--table` flag when non-empty,
else the derived name. -/
def resolveTableName (tableFlag : String) (geojsonPath : String) : String :=
  if tableFlag = "" then deriveTableName geojsonPath else tableFlag

/-- The fault assignment in which every external call succeeds. -/
def faultsAllOk : Faults :=
  ⟨true, true, true, true, true, true, true, true, true, true⟩

/-! ### Helper lemmas -/

/-- The source's integrality test agrees with "the value equals its truncation
to a 64-bit integer": it holds exactly when the value is an integer of the
int64 range. -/
theorem isIntegralInt64_iff (q : ℚ) :
    isIntegralInt64 q = true ↔
      ∃ n : ℤ, -(2 ^ 63) ≤ n ∧ n < 2 ^ 63 ∧ (n : ℚ) = q := by
  simp only [isIntegralInt64, decide_eq_true_eq]
  constructor
  · rintro ⟨hden, hlo, hhi⟩
    exact ⟨q.num, hlo, hhi, (Rat.den_eq_one_iff q).mp hden⟩
  · rintro ⟨n, hlo, hhi, hn⟩
    subst hn
    simpa using ⟨hlo, hhi⟩

/-- 7/2 is not an integral int64 value. -/
theorem half_not_integral :
    ¬ ∃ n : ℤ, -(2 ^ 63) ≤ n ∧ n < 2 ^ 63 ∧ (n : ℚ) = 7 / 2 := by
  rintro ⟨n, -, -, hn⟩
  have h2 : (2 : ℚ) * n = 7 := by rw [hn]; ring
  have h3 : (2 * n : ℤ) = 7 := by exact_mod_cast h2
  omega

/-- Appending a string makes it a trailing segment of the result. -/
theorem goHasSuffix_append_self (s t : String) : goHasSuffix (s ++ t) t = true := by
  simp only [goHasSuffix, decide_eq_true_eq, String.toList]
  rw [String.data_append]
  exact List.suffix_append _ _

/-! ### Claim theorems -/

/-- C1: `inferType` maps strings to VARCHAR; numbers that equal their
truncation to a 64-bit integer to BIGINT and all other numbers to DOUBLE;
booleans to BOOLEAN; null and any other shape (array, object) to VARCHAR;
and it is a pure function of the value's shape. -/
theorem inferType_cases :
    (∀ s, inferType (.str s) = "VARCHAR")
    ∧ (∀ q : ℚ, (∃ n : ℤ, -(2 ^ 63) ≤ n ∧ n < 2 ^ 63 ∧ (n : ℚ) = q) →
        inferType (.num q) = "BIGINT")
    ∧ (∀ q : ℚ, (¬ ∃ n : ℤ, -(2 ^ 63) ≤ n ∧ n < 2 ^ 63 ∧ (n : ℚ) = q) →
        inferType (.num q) = "DOUBLE")
    ∧ (∀ b, inferType (.bool b) = "BOOLEAN")
    ∧ inferType .null = "VARCHAR"
    ∧ (∀ xs, inferType (.arr xs) = "VARCHAR")
    ∧ (∀ kvs, inferType (.obj kvs) = "VARCHAR")
    ∧ (∀ v, inferType v = inferType v) := by
  refine ⟨fun _ => rfl, fun q hq => ?_, fun q hq => ?_, fun _ => rfl, rfl,
    fun _ => rfl, fun _ => rfl, fun _ => rfl⟩
  · have h := (isIntegralInt64_iff q).mpr hq
    simp [inferType, h]
  · have h : isIntegralInt64 q = false := by
      rcases Bool.eq_false_or_eq_true (isIntegralInt64 q) with h | h
      · exact absurd ((isIntegralInt64_iff q).mp h) hq
      · exact h
    simp [inferType, h]

/-- Witness for C1 at the concrete numbers 3 (integral) and 7/2 (not). -/
theorem inferType_cases_witness :
    inferType (.num 3) = "BIGINT" ∧ inferType (.num (7 / 2)) = "DOUBLE" :=
  ⟨inferType_cases.2.1 3 ⟨3, by norm_num⟩,
   inferType_cases.2.2.1 (7 / 2) half_not_integral⟩

/-- C9: `EnsureDuckDBExtension` keeps a name already ending in ".duckdb"
unchanged and appends ".duckdb" otherwise; hence it is idempotent and its
result always ends in ".duckdb". -/
theorem ensureDuckDBExtension_spec (s : String) :
    (goHasSuffix s ".duckdb" = true → EnsureDuckDBExtension s = s)
    ∧ (goHasSuffix s ".duckdb" = false → EnsureDuckDBExtension s = s ++ ".duckdb")
    ∧ EnsureDuckDBExtension (EnsureDuckDBExtension s) = EnsureDuckDBExtension s
    ∧ goHasSuffix (EnsureDuckDBExtension s) ".duckdb" = true := by
  rcases Bool.eq_false_or_eq_true (goHasSuffix s ".duckdb") with h | h
  · have he : EnsureDuckDBExtension s = s := by
      simp [EnsureDuckDBExtension, h]
    exact ⟨fun _ => he, fun hc => by rw [h] at hc; exact absurd hc (by simp),
      by rw [he, he], by rw [he]; exact h⟩
  · have he : EnsureDuckDBExtension s = s ++ ".duckdb" := by
      simp [EnsureDuckDBExtension, h]
    have hs : goHasSuffix (s ++ ".duckdb") ".duckdb" = true :=
      goHasSuffix_append_self s ".duckdb"
    refine ⟨fun hc => by rw [h] at hc; exact absurd hc (by simp), fun _ => he, ?_,
      by rw [he]; exact hs⟩
    rw [he, EnsureDuckDBExtension, hs]
    simp

/-- Witness for C9 at "geodata" (no extension) and "x.duckdb" (already has
the extension). -/
theorem ensureDuckDBExtension_spec_witness :
    EnsureDuckDBExtension "geodata" = "geodata" ++ ".duckdb"
    ∧ EnsureDuckDBExtension "x.duckdb" = "x.duckdb" :=
  ⟨(ensureDuckDBExtension_spec "geodata").2.1 (by decide),
   (ensureDuckDBExtension_spec "x.duckdb").1 (by decide)⟩

/-- `inferType` never returns "GEOMETRY": the geometry column is never
property-derived. -/
theorem inferType_ne_geometry (v : JsonValue) : inferType v ≠ "GEOMETRY" := by
  cases v with
  | num q =>
    rcases Bool.eq_false_or_eq_true (isIntegralInt64 q) with h | h <;>
      simp [inferType, h]
  | str s => simp [inferType]
  | bool b => simp [inferType]
  | null => simp [inferType]
  | arr xs => simp [inferType]
  | obj kvs => simp [inferType]

/-- Among the property-derived columns, each name occurs as often as the key
occurs in the property mapping. -/
theorem propColumns_countP_name (props : List (String × JsonValue)) (k : String) :
    ((props.map fun kv => (⟨kv.1, inferType kv.2⟩ : Column)).countP
        fun c => c.Name == k)
      = List.count k (props.map Prod.fst) := by
  rw [List.countP_map, List.count, List.countP_map]
  rfl

/-- C3: for every non-empty feature collection whose first (representative)
feature has distinct property keys (a Go map guarantees this), schema
inference succeeds and the produced schema has exactly (number of distinct
property keys) + 1 columns, the extra column being `geom GEOMETRY`, placed
last in the ordered column list. -/
theorem inferSchema_column_count (doc : GeoJSONDoc) (f : Feature)
    (rest : List Feature) (hfeat : doc.features = f :: rest)
    (hnodup : (f.properties.map Prod.fst).Nodup) :
    ∃ s, inferSchemaFromGeoJSON (some doc) = .ok s
      ∧ s.Columns.length = (f.properties.map Prod.fst).dedup.length + 1
      ∧ s.Columns.getLast? = some ⟨"geom", "GEOMETRY"⟩ := by
  refine ⟨⟨inferColumns f.properties⟩, by simp [inferSchemaFromGeoJSON, hfeat], ?_, ?_⟩
  · rw [List.dedup_eq_self.mpr hnodup]
    simp [inferColumns]
  · simp [inferColumns]

/-- Witness for C3 at the spec's sample feature
`{name: "A", population: 10}`. -/
theorem inferSchema_column_count_witness :
    ∃ s, inferSchemaFromGeoJSON
        (some ⟨[⟨.null, [("name", .str "A"), ("population", .num 10)]⟩]⟩) = .ok s
      ∧ s.Columns.length = 3
      ∧ s.Columns.getLast? = some ⟨"geom", "GEOMETRY"⟩ := by
  obtain ⟨s, h1, h2, h3⟩ :=
    inferSchema_column_count ⟨[⟨.null, [("name", .str "A"), ("population", .num 10)]⟩]⟩
      ⟨.null, [("name", .str "A"), ("population", .num 10)]⟩ [] rfl (by decide)
  refine ⟨s, h1, ?_, h3⟩
  rw [h2]
  decide

/-- C2 counterexample: for the representative feature whose only property is
named "geom", the inferred schema is `[geom VARCHAR, geom GEOMETRY]`: the
property key "geom" appears twice among the schema's column names, not
exactly once as the claim states. -/
theorem inferSchema_geom_collision_counterexample :
    inferColumns [("geom", JsonValue.str "x")]
        = [⟨"geom", "VARCHAR"⟩, ⟨"geom", "GEOMETRY"⟩]
      ∧ ((inferColumns [("geom", JsonValue.str "x")]).countP
          fun c => c.Name == "geom") = 2 := by
  constructor <;> decide

/-- C2 amended: for every representative feature with distinct property keys,
the geometry column (name "geom", type GEOMETRY) appears exactly once in the
inferred schema; every property key yields exactly one property-derived
column; every property key other than "geom" appears exactly once among all
the schema's column names; and a property named "geom" collides with the
appended geometry column, making the name "geom" appear exactly twice. -/
theorem inferSchema_keys_once_amended (f : Feature)
    (hnodup : (f.properties.map Prod.fst).Nodup) :
    ((inferColumns f.properties).countP
        fun c => (c.Name == "geom") && (c.«Type» == "GEOMETRY")) = 1
    ∧ (∀ k ∈ f.properties.map Prod.fst,
        ((f.properties.map fun kv => (⟨kv.1, inferType kv.2⟩ : Column)).countP
          fun c => c.Name == k) = 1)
    ∧ (∀ k ∈ f.properties.map Prod.fst, k ≠ "geom" →
        ((inferColumns f.properties).countP fun c => c.Name == k) = 1)
    ∧ ("geom" ∈ f.properties.map Prod.fst →
        ((inferColumns f.properties).countP fun c => c.Name == "geom") = 2) := by
  have hprop : ∀ k, ((f.properties.map fun kv => (⟨kv.1, inferType kv.2⟩ : Column)).countP
      fun c => c.Name == k) = List.count k (f.properties.map Prod.fst) :=
    fun k => propColumns_countP_name f.properties k
  have hone : ∀ k ∈ f.properties.map Prod.fst,
      List.count k (f.properties.map Prod.fst) = 1 :=
    fun k hk => List.count_eq_one_of_mem hnodup hk
  refine ⟨?_, ?_, ?_, ?_⟩
  · rw [inferColumns, List.countP_append]
    have hz : ((f.properties.map fun kv => (⟨kv.1, inferType kv.2⟩ : Column)).countP
        fun c => (c.Name == "geom") && (c.«Type» == "GEOMETRY")) = 0 := by
      rw [List.countP_eq_zero]
      intro c hc
      simp only [List.mem_map] at hc
      obtain ⟨kv, -, rfl⟩ := hc
      simp only [Bool.and_eq_true, beq_iff_eq]
      rintro ⟨-, hty⟩
      exact inferType_ne_geometry kv.2 hty
    rw [hz]
    rfl
  · intro k hk
    rw [hprop k, hone k hk]
  · intro k hk hne
    rw [inferColumns, List.countP_append, hprop k, hone k hk]
    have : (("geom" : String) == k) = false := by
      simp [beq_eq_false_iff_ne]
      exact fun h => hne h.symm
    simp [List.countP, List.countP.go, this]
  · intro hk
    rw [inferColumns, List.countP_append, hprop "geom", hone "geom" hk]
    rfl

/-- Witness for the amended C2 at the feature `{name: "A", geom: 1}`. -/
theorem inferSchema_keys_once_amended_witness :
    ((inferColumns [("name", JsonValue.str "A"), ("geom", JsonValue.num 1)]).countP
        fun c => (c.Name == "geom") && (c.«Type» == "GEOMETRY")) = 1
    ∧ ((inferColumns [("name", JsonValue.str "A"), ("geom", JsonValue.num 1)]).countP
        fun c => c.Name == "name") = 1
    ∧ ((inferColumns [("name", JsonValue.str "A"), ("geom", JsonValue.num 1)]).countP
        fun c => c.Name == "geom") = 2 := by
  have h := inferSchema_keys_once_amended
    ⟨.null, [("name", .str "A"), ("geom", .num 1)]⟩ (by decide)
  exact ⟨h.1, h.2.2.1 "name" (by decide) (by decide), h.2.2.2 (by decide)⟩

/-- The bulk plan produces exactly one row per source feature. -/
theorem planRows_length (doc : GeoJSONDoc) (schema : List Column) :
    (planRows doc schema).length = doc.features.length := by
  simp [planRows]

/-- A successful `loadDataIntoTable` reports exactly the number of features of
the source document. -/
theorem loadDataIntoTable_ok_count (fl : Faults) (db : Database)
    (tableName : String) (file : Option GeoJSONDoc) (doc : GeoJSONDoc)
    (db2 : Database) (n : Nat) (ev : List DBEvent)
    (hfile : file = some doc)
    (h : loadDataIntoTable fl db tableName file = (db2, .ok n, ev)) :
    n = doc.features.length := by
  subst hfile
  unfold loadDataIntoTable at h
  repeat' split at h
  all_goals simp_all [planRows_length]

/-- `loadDataIntoTable` only ever reports an error (with no count) or the
insertion's rows-affected count; its event list is empty or the single INSERT. -/
theorem loadDataIntoTable_events (fl : Faults) (db : Database)
    (tableName : String) (file : Option GeoJSONDoc) :
    (loadDataIntoTable fl db tableName file).2.2 = []
    ∨ ∃ rs, (loadDataIntoTable fl db tableName file).2.2
        = [DBEvent.insertStmt tableName rs] := by
  unfold loadDataIntoTable
  repeat' split
  all_goals simp

/-- Appending rows to an existing table grows its stored row count by exactly
the number of appended rows. -/
theorem storedRows_insertInto (db : Database) (tableName : String)
    (rs : List (List SQLValue)) (hex : tableExists db tableName = true) :
    storedRows (db.insertInto tableName rs) tableName
      = storedRows db tableName + rs.length := by
  obtain ⟨ts⟩ := db
  induction ts with
  | nil => simp [tableExists] at hex
  | cons hd tl ih =>
    by_cases h : hd.name = tableName
    · simp [storedRows, Database.insertInto, List.find?_cons, h]
    · have e1 : (if hd.name = tableName
          then (⟨hd.name, hd.columns, hd.rows ++ rs⟩ : Table) else hd) = hd :=
        if_neg h
      have hd2 : (decide (hd.name = tableName)) = false := by simp [h]
      have hex' : tableExists (⟨tl⟩ : Database) tableName = true := by
        simpa [tableExists, h] using hex
      have ih' := ih hex'
      simp only [storedRows, Database.insertInto] at ih'
      simp only [storedRows, Database.insertInto, List.map_cons, e1,
        List.find?_cons, hd2]
      exact ih'

/-- `finishLoad` reports row count 0 whenever it reports an error. -/
theorem finishLoad_error_zero (pre : List DBEvent)
    (r : Database × Except LoadDataError Nat × List DBEvent)
    (db2 : Database) (n : Nat) (e : LoadError) (tr : List DBEvent)
    (h : finishLoad pre r = (db2, n, some e, tr)) : n = 0 := by
  rcases r with ⟨a, b, c⟩
  cases b <;> simp [finishLoad] at h
  exact h.2.1.symm

/-- A no-error result of `finishLoad` comes from a successful
`loadDataIntoTable` outcome with the same database and count. -/
theorem finishLoad_ok (pre : List DBEvent)
    (r : Database × Except LoadDataError Nat × List DBEvent)
    (db2 : Database) (n : Nat) (tr : List DBEvent)
    (h : finishLoad pre r = (db2, n, none, tr)) :
    ∃ ev, r = (db2, .ok n, ev) ∧ tr = pre ++ ev := by
  rcases r with ⟨a, b, c⟩
  cases b <;> simp [finishLoad] at h
  obtain ⟨h1, h2, h3⟩ := h
  exact ⟨c, by rw [h1, h2], h3.symm⟩

/-- C10: every error return of `LoadGeoJSON` carries row count 0; a nonzero
count is only returned together with no error. -/
theorem loadGeoJSON_error_rowcount_zero (fl : Faults) (db : Database)
    (tableName : String) (file : Option GeoJSONDoc) (db2 : Database) (n : Nat)
    (e : LoadError) (tr : List DBEvent)
    (h : LoadGeoJSON fl db tableName file = (db2, n, some e, tr)) :
    n = 0 := by
  unfold LoadGeoJSON at h
  repeat' split at h
  all_goals first
    | exact finishLoad_error_zero _ _ _ _ _ _ h
    | simp_all

/-- Witness for C10: with path resolution failing, the load returns
count 0 with an error. -/
theorem loadGeoJSON_error_rowcount_zero_witness : (0 : Nat) = 0 :=
  loadGeoJSON_error_rowcount_zero
    ⟨false, true, true, true, true, true, true, true, true, true⟩
    ⟨[]⟩ "cities" none ⟨[]⟩ 0 .resolveDBPath [] rfl

/-- C5: every successful load of a document reports exactly the number of its
features as the row count: the single bulk INSERT inserts one row per feature,
so no feature is silently dropped, and any insert failure is an error return
for the whole load (covered by C10), not a partial skip. -/
theorem loadGeoJSON_success_rowcount (fl : Faults) (db : Database)
    (tableName : String) (doc : GeoJSONDoc) (db2 : Database) (n : Nat)
    (tr : List DBEvent)
    (h : LoadGeoJSON fl db tableName (some doc) = (db2, n, none, tr)) :
    n = doc.features.length := by
  unfold LoadGeoJSON at h
  repeat' split at h
  all_goals first
    | (obtain ⟨ev, hld, -⟩ := finishLoad_ok _ _ _ _ _ h
       exact loadDataIntoTable_ok_count _ _ _ _ doc _ _ _ rfl hld)
    | simp_all

/-- Witness for C5: loading one feature into an existing table reports 1. -/
theorem loadGeoJSON_success_rowcount_witness :
    (1 : Nat) = (GeoJSONDoc.mk [⟨.null, []⟩]).features.length :=
  loadGeoJSON_success_rowcount faultsAllOk
    ⟨[⟨"t", [⟨"geom", "GEOMETRY"⟩], []⟩]⟩ "t" ⟨[⟨.null, []⟩]⟩ _ 1 _ rfl

/-- C4: loading a document with an empty features sequence into an absent
table fails with the empty-source error, returns row count 0, leaves the
database unchanged, and issues no CREATE TABLE statement. (The hypotheses say
the phases before schema inference succeed, which is what lets the load reach
the inference step.) -/
theorem loadGeoJSON_empty_source (fl : Faults) (db : Database)
    (tableName : String) (doc : GeoJSONDoc)
    (h1 : fl.resolveDBOk = true) (h2 : fl.resolveGeoJSONOk = true)
    (h3 : fl.openOk = true) (h4 : fl.loadExtensionOk = true)
    (h5 : fl.tableExistsOk = true)
    (habs : tableExists db tableName = false)
    (hempty : doc.features = []) :
    ∃ tr, LoadGeoJSON fl db tableName (some doc)
        = (db, 0, some (.inferSchema .emptySource), tr)
      ∧ ∀ tn cols, DBEvent.createTableStmt tn cols ∉ tr := by
  refine ⟨[.loadSpatial, .inferSchemaCall], ?_, ?_⟩
  · simp [LoadGeoJSON, h1, h2, h3, h4, h5, habs, inferSchemaFromGeoJSON, hempty]
  · intro tn cols
    simp

/-- Witness for C4: empty document, fresh database. -/
theorem loadGeoJSON_empty_source_witness :
    ∃ tr, LoadGeoJSON faultsAllOk ⟨[]⟩ "cities" (some ⟨[]⟩)
        = (⟨[]⟩, 0, some (.inferSchema .emptySource), tr)
      ∧ ∀ tn cols, DBEvent.createTableStmt tn cols ∉ tr :=
  loadGeoJSON_empty_source faultsAllOk ⟨[]⟩ "cities" ⟨[]⟩
    rfl rfl rfl rfl rfl rfl rfl

/-- C6: when the existence check reports the target table present, the load
issues no CREATE TABLE statement and never invokes schema inference,
whatever the remaining call outcomes are; and when the remaining calls
succeed, the load appends: it inserts `planRows` built from the existing
table's introspected schema, reports the number of features, and the table's
stored row count grows from N1 to N1 + N2. -/
theorem loadGeoJSON_append_law (fl : Faults) (db : Database)
    (tableName : String) (doc : GeoJSONDoc)
    (h1 : fl.resolveDBOk = true) (h2 : fl.resolveGeoJSONOk = true)
    (h3 : fl.openOk = true) (h4 : fl.loadExtensionOk = true)
    (h5 : fl.tableExistsOk = true)
    (hex : tableExists db tableName = true) :
    (∀ db2 n e tr, LoadGeoJSON fl db tableName (some doc) = (db2, n, e, tr) →
      (∀ tn cols, DBEvent.createTableStmt tn cols ∉ tr)
        ∧ DBEvent.inferSchemaCall ∉ tr)
    ∧ (fl.readJSONOk = true → fl.getSchemaOk = true → fl.insertOk = true →
        fl.rowsAffectedOk = true →
        LoadGeoJSON fl db tableName (some doc)
          = (db.insertInto tableName (planRows doc (getTableSchema db tableName)),
             doc.features.length, none,
             [.loadSpatial,
              .insertStmt tableName (planRows doc (getTableSchema db tableName))])
        ∧ storedRows
            (db.insertInto tableName (planRows doc (getTableSchema db tableName)))
            tableName
          = storedRows db tableName + doc.features.length) := by
  constructor
  · intro db2 n e tr h
    rw [LoadGeoJSON] at h
    simp only [h1, h2, h3, h4, h5, hex] at h
    rcases loadDataIntoTable_events fl db tableName (some doc) with hev | ⟨rs, hev⟩ <;>
      rcases hld : loadDataIntoTable fl db tableName (some doc) with ⟨a, b, c⟩ <;>
        rw [hld] at hev h <;> simp at hev <;> subst hev <;> cases b <;>
          simp [finishLoad] at h <;>
            obtain ⟨-, -, -, htr⟩ := h <;> subst htr <;> simp
  · intro g1 g2 g3 g4
    have hload : loadDataIntoTable fl db tableName (some doc)
        = (db.insertInto tableName (planRows doc (getTableSchema db tableName)),
           .ok (planRows doc (getTableSchema db tableName)).length,
           [.insertStmt tableName (planRows doc (getTableSchema db tableName))]) := by
      rw [loadDataIntoTable]
      simp [g1, g2, g3, g4]
    constructor
    · rw [LoadGeoJSON]
      simp only [h1, h2, h3, h4, h5, hex]
      simp [hload, finishLoad, planRows_length]
    · rw [storedRows_insertInto db tableName _ hex, planRows_length]

/-- Witness for C6: appending one feature to a table already holding one row
grows it to two and reports 1, with no DDL and no schema inference. -/
theorem loadGeoJSON_append_law_witness :
    (DBEvent.inferSchemaCall
        ∉ (LoadGeoJSON faultsAllOk
            ⟨[⟨"t", [⟨"geom", "GEOMETRY"⟩], [[SQLValue.null]]⟩]⟩ "t"
            (some ⟨[⟨.null, []⟩]⟩)).2.2.2)
    ∧ storedRows
        ((⟨[⟨"t", [⟨"geom", "GEOMETRY"⟩], [[SQLValue.null]]⟩]⟩ : Database).insertInto "t"
          (planRows ⟨[⟨.null, []⟩]⟩
            (getTableSchema ⟨[⟨"t", [⟨"geom", "GEOMETRY"⟩], [[SQLValue.null]]⟩]⟩ "t")))
        "t"
      = storedRows (⟨[⟨"t", [⟨"geom", "GEOMETRY"⟩], [[SQLValue.null]]⟩]⟩ : Database) "t"
        + (GeoJSONDoc.mk [⟨.null, []⟩]).features.length := by
  have h := loadGeoJSON_append_law faultsAllOk
    ⟨[⟨"t", [⟨"geom", "GEOMETRY"⟩], [[SQLValue.null]]⟩]⟩ "t" ⟨[⟨.null, []⟩]⟩
    rfl rfl rfl rfl rfl rfl
  refine ⟨?_, (h.2 rfl rfl rfl rfl).2⟩
  exact ((h.1 _ _ _ _ rfl).2)

/-- C7: the load plan projects, for every non-geometry column of the target
schema, the feature's property of the same name: at that column's position the
row holds the property's extracted value, or SQL NULL when the feature lacks
the property; and the plan always produces one row per feature (a missing
property never drops a row or aborts the load). -/
theorem loadPlan_missing_property (schema : List Column) (f : Feature)
    (c : Column) (i : ℕ) (hi : (nonGeomCols schema)[i]? = some c) :
    (planRow schema f)[i]? = some (projectCell f.properties c.Name)
    ∧ (f.properties.lookup c.Name = none →
        projectCell f.properties c.Name = SQLValue.null)
    ∧ (∀ v, f.properties.lookup c.Name = some v →
        projectCell f.properties c.Name = SQLValue.jsonText v)
    ∧ ∀ doc : GeoJSONDoc, (planRows doc schema).length = doc.features.length := by
  have hlen : i < (nonGeomCols schema).length := by
    by_contra hl
    push_neg at hl
    rw [List.getElem?_eq_none hl] at hi
    exact Option.noConfusion hi
  refine ⟨?_, fun hnone => by simp [projectCell, hnone], fun v hv => by simp [projectCell, hv],
    fun doc => planRows_length doc schema⟩
  rw [planRow, List.getElem?_append_left (by simpa using hlen), List.getElem?_map, hi]
  rfl

/-- Witness for C7: a feature lacking the "name" property yields NULL in the
"name" column of its row. -/
theorem loadPlan_missing_property_witness :
    (planRow [⟨"name", "VARCHAR"⟩, ⟨"geom", "GEOMETRY"⟩] ⟨.null, []⟩)[0]?
        = some (projectCell [] "name")
    ∧ projectCell [] "name" = SQLValue.null := by
  have h := loadPlan_missing_property [⟨"name", "VARCHAR"⟩, ⟨"geom", "GEOMETRY"⟩]
    ⟨.null, []⟩ ⟨"name", "VARCHAR"⟩ 0 rfl
  exact ⟨h.1, h.2.1 rfl⟩

/-- The extension scanner returns either nothing or a trailing segment of the
scanned element (`rev` is the element reversed, `acc` the already-consumed
trailing characters). -/
theorem extRevAux_suffix (rev : List Char) :
    ∀ acc : List Char, extRevAux acc rev = []
      ∨ extRevAux acc rev <:+ (rev.reverse ++ acc) := by
  induction rev with
  | nil => intro acc; left; rfl
  | cons c rest ih =>
    intro acc
    rw [extRevAux]
    by_cases hc : c = '/'
    · left; simp [hc]
    · rw [if_neg hc]
      by_cases hd : c = '.'
      · right
        rw [if_pos hd, hd]
        have : (c :: rest).reverse ++ acc = rest.reverse ++ ('.' :: acc) := by
          simp [hd]
        rw [hd] at this
        rw [this]
        exact List.suffix_append _ _
      · rw [if_neg hd]
        rcases ih (c :: acc) with h | h
        · left; exact h
        · right
          have : (c :: rest).reverse ++ acc = rest.reverse ++ (c :: acc) := by simp
          rw [this]
          exact h

/-- `pathExt p` is a trailing segment of `p`. -/
theorem pathExt_suffix (p : String) : (pathExt p).toList <:+ p.toList := by
  have h := extRevAux_suffix p.toList.reverse []
  rcases h with h | h
  · rw [pathExt, h]
    exact ⟨p.toList, by simp [String.toList]⟩
  · rw [pathExt]
    simpa using h

/-- Trimming a suffix that is really there leaves exactly the front part:
the trimmed string followed by the suffix is the original. -/
theorem goTrimSuffix_append_of_suffix (b e : String)
    (h : e.toList <:+ b.toList) :
    (goTrimSuffix b e).toList ++ e.toList = b.toList := by
  obtain ⟨pre, hpre⟩ := h
  have hhs : goHasSuffix b e = true := by
    simp only [goHasSuffix, decide_eq_true_eq]
    exact ⟨pre, hpre⟩
  rw [goTrimSuffix, if_pos hhs]
  show (b.toList.take (b.toList.length - e.toList.length)) ++ e.toList = b.toList
  rw [← hpre, List.length_append, Nat.add_sub_cancel, List.take_left]

/-- Characters of a single-character replacement: each is the replacement
character or an untouched character of the source. -/
theorem mem_replaceAllChar (s : String) (old new c : Char)
    (hc : c ∈ (replaceAllChar s old new).toList) :
    c = new ∨ (c ∈ s.toList ∧ c ≠ old) := by
  simp only [replaceAllChar, String.toList, List.mem_map] at hc
  obtain ⟨a, ha, hfa⟩ := hc
  by_cases h : a = old
  · rw [if_pos h] at hfa
    left; exact hfa.symm
  · rw [if_neg h] at hfa
    right
    exact ⟨hfa ▸ ha, hfa ▸ h⟩

/-- C8: the derived table name is a pure function of the file's base name
(equal base names give equal table names); the extension is removed exactly
(trimmed part ++ extension = base name); and the result contains no '-' and
no ' ' characters (both replaced by '_'). Purity needs no statement: the
derivation is a total Lean function of the path string alone. -/
theorem deriveTableName_spec (p q : String) (hbase : pathBase p = pathBase q) :
    deriveTableName p = deriveTableName q
    ∧ (goTrimSuffix (pathBase p) (pathExt (pathBase p))).toList
        ++ (pathExt (pathBase p)).toList = (pathBase p).toList
    ∧ (deriveTableName p).toList
        = (goTrimSuffix (pathBase p) (pathExt (pathBase p))).toList.map
            (fun ch => if ch = '-' ∨ ch = ' ' then '_' else ch)
    ∧ ∀ c ∈ (deriveTableName p).toList, c ≠ '-' ∧ c ≠ ' ' := by
  refine ⟨by rw [deriveTableName, deriveTableName, hbase], ?_, ?_, ?_⟩
  · exact goTrimSuffix_append_of_suffix _ _ (pathExt_suffix (pathBase p))
  · rw [deriveTableName]
    show ((goTrimSuffix (pathBase p) (pathExt (pathBase p))).toList.map
        (fun ch => if ch = '-' then '_' else ch)).map
          (fun ch => if ch = ' ' then '_' else ch) = _
    rw [List.map_map]
    have hfun : ((fun ch => if ch = ' ' then '_' else ch)
          ∘ fun ch => if ch = '-' then '_' else ch)
        = fun ch : Char => if ch = '-' ∨ ch = ' ' then '_' else ch := by
      funext ch
      by_cases h1 : ch = '-'
      · simp [h1]
      · by_cases h2 : ch = ' ' <;> simp [Function.comp, h1, h2]
    rw [hfun]
  · intro c hc
    rw [deriveTableName] at hc
    rcases mem_replaceAllChar _ _ _ _ hc with h | ⟨hmem, hsp⟩
    · subst h
      exact ⟨by decide, by decide⟩
    · rcases mem_replaceAllChar _ _ _ _ hmem with h | ⟨-, hdash⟩
      · subst h
        exact ⟨by decide, by decide⟩
      · exact ⟨hdash, hsp⟩

/-- Witness for C8 at `geo/us-states 2024.geojson` (derived name
`us_states_2024`). -/
theorem deriveTableName_spec_witness :
    deriveTableName "geo/us-states 2024.geojson"
        = deriveTableName "us-states 2024.geojson"
    ∧ ('_' ∈ (deriveTableName "geo/us-states 2024.geojson").toList
        ∧ ('_' : Char) ≠ '-' ∧ ('_' : Char) ≠ ' ') := by
  have h := deriveTableName_spec "geo/us-states 2024.geojson" "us-states 2024.geojson"
    (by decide)
  exact ⟨h.1, by decide, h.2.2.2 '_' (by decide)⟩

end XyzDuck
